import Mathlib

/-!
Verification of the MPF codec abstraction (`src/libs/mpf/include/mpf_codec.h`).

The header defines `mpf_codec_t` (vtable + attributes + optional static
descriptor + opaque encoder/decoder objects + pool) together with inline
wrappers: `mpf_codec_create`, `mpf_codec_clone`, the four lifecycle wrappers
(`mpf_codec_encoder_open`, `mpf_codec_encoder_close`, `mpf_codec_decoder_open`,
`mpf_codec_decoder_close`), `mpf_codec_encode`, `mpf_codec_decode`,
`mpf_codec_dissect` (with a default fixed-size dissector) and `mpf_codec_fill`
(with a default zero-fill).

Embedding choices:
* bytes are `Nat`; the caller's network buffer is a byte memory `Mem : Nat → Nat`
  together with a pointer (`Nat` address) and a remaining size;
* a frame's payload region is embedded as the byte content it holds
  (`buffer : Nat → Nat`) plus the declared `size`;
* pointers to attributes / descriptors / pools are plain `Nat` addresses
  (`Option Nat` where the C pointer may be `NULL`), never dereferenced here;
* the vtable holds `Option`-valued implementations (a `NULL` function pointer
  is `none`); an implementation acts on the codec's mutable encoder/decoder
  objects and on the arguments the C function pointer receives;
* `apr_palloc` allocation of codec objects is modelled by a heap of codec
  records with a fresh-address counter, so that clone/source aliasing facts
  are real statements about distinct addresses.
-/

/-- Byte memory: the content of the caller's buffer region, byte by byte. -/
abbrev Mem : Type := Nat → Nat

/-- `mpf_codec_frame_t`. Modelled from the spec: the frame struct lives in
`mpf_codec_descriptor.h`, which is not among the provided sources; per the
spec a frame is "a buffer reference plus a declared byte size", and the code
here accesses exactly the two fields `frame->buffer` and `frame->size`. -/
structure mpf_codec_frame_t where
  buffer : Nat → Nat
  size   : Nat

/-- The mutable encoder/decoder objects of a codec instance (`encoder_obj`,
`decoder_obj`), i.e. the per-instance state a virtual method may replace.
`none` is the `NULL` handle. -/
structure mpf_codec_objs_t where
  encoder_obj : Option Nat
  decoder_obj : Option Nat

/-- `mpf_codec_vtable_t`: the table of virtual methods. A `none` entry is a
`NULL` function pointer. Each implementation receives the codec's mutable
objects and the C arguments, and returns the flag plus every location it may
write through. -/
structure mpf_codec_vtable_t where
  open_encoder  : Option (mpf_codec_objs_t → Bool × mpf_codec_objs_t)
  close_encoder : Option (mpf_codec_objs_t → Bool × mpf_codec_objs_t)
  open_decoder  : Option (mpf_codec_objs_t → Bool × mpf_codec_objs_t)
  close_decoder : Option (mpf_codec_objs_t → Bool × mpf_codec_objs_t)
  encode : Option (mpf_codec_objs_t → mpf_codec_frame_t → mpf_codec_frame_t →
                   Bool × mpf_codec_objs_t × mpf_codec_frame_t)
  decode : Option (mpf_codec_objs_t → mpf_codec_frame_t → mpf_codec_frame_t →
                   Bool × mpf_codec_objs_t × mpf_codec_frame_t)
  dissect : Option (mpf_codec_objs_t → Mem → Nat → Nat → mpf_codec_frame_t →
                    Bool × mpf_codec_objs_t × Nat × Nat × mpf_codec_frame_t)
  fill : Option (mpf_codec_objs_t → mpf_codec_frame_t →
                 Bool × mpf_codec_objs_t × mpf_codec_frame_t)
  match_formats : Option (Nat → Nat → Bool)

/-- `mpf_codec_t`: vtable, attributes pointer, optional static descriptor
pointer, encoder/decoder objects (`NULL` = `none`), memory pool pointer. -/
structure mpf_codec_t where
  vtable            : mpf_codec_vtable_t
  attribs           : Nat
  static_descriptor : Option Nat
  encoder_obj       : Option Nat
  decoder_obj       : Option Nat
  pool              : Nat

/-- The mutable objects of a codec, as handed to a virtual method. -/
def mpf_codec_t.objs (c : mpf_codec_t) : mpf_codec_objs_t :=
  ⟨c.encoder_obj, c.decoder_obj⟩

/-- Write back the mutable objects a virtual method returned. -/
def mpf_codec_t.setObjs (c : mpf_codec_t) (o : mpf_codec_objs_t) : mpf_codec_t :=
  { c with encoder_obj := o.encoder_obj, decoder_obj := o.decoder_obj }

/-- A heap of codec objects standing for arena storage: `next` is the next
fresh address `apr_palloc` hands out, `store` maps allocated addresses to
codec records. -/
structure CodecHeap where
  next  : Nat
  store : Nat → Option mpf_codec_t

/-- Overwrite the codec record at an already-allocated address. -/
def CodecHeap.write (h : CodecHeap) (a : Nat) (c : mpf_codec_t) : CodecHeap :=
  ⟨h.next, fun x => if x = a then some c else h.store x⟩

/-- `apr_palloc(pool, sizeof(mpf_codec_t))` followed by field assignment:
store the record at the fresh address and return that address. -/
def CodecHeap.alloc (h : CodecHeap) (c : mpf_codec_t) : Nat × CodecHeap :=
  (h.next, ⟨h.next + 1, fun x => if x = h.next then some c else h.store x⟩)

/-- `mpf_codec_create`: allocate a codec from the pool, set vtable, attribs
and descriptor from the arguments, `NULL` the encoder/decoder objects, and
remember the pool. -/
def mpf_codec_create (vtable : mpf_codec_vtable_t) (attribs : Nat)
    (descriptor : Option Nat) (pool : Nat) (h : CodecHeap) : Nat × CodecHeap :=
  h.alloc { vtable := vtable, attribs := attribs, static_descriptor := descriptor,
            encoder_obj := none, decoder_obj := none, pool := pool }

/-- `mpf_codec_clone`: allocate a codec from the pool, copy vtable, attribs
and static descriptor from the source codec, `NULL` the encoder/decoder
objects, and remember the pool. (Dereferencing an unallocated source is
undefined behaviour in C; here it leaves the heap unchanged, and every
statement below assumes the source is allocated.) -/
def mpf_codec_clone (src_codec : Nat) (pool : Nat) (h : CodecHeap) : Nat × CodecHeap :=
  match h.store src_codec with
  | none => (h.next, h)
  | some sc =>
      h.alloc { vtable := sc.vtable, attribs := sc.attribs,
                static_descriptor := sc.static_descriptor,
                encoder_obj := none, decoder_obj := none, pool := pool }

/-- `mpf_codec_encoder_open`: `rv = TRUE`; if the vtable entry is set,
delegate and take its result. -/
def mpf_codec_encoder_open (codec : mpf_codec_t) : Bool × mpf_codec_t :=
  match codec.vtable.open_encoder with
  | some f => ((f codec.objs).1, codec.setObjs (f codec.objs).2)
  | none => (true, codec)

/-- `mpf_codec_encoder_close`: `rv = TRUE`; if the vtable entry is set,
delegate and take its result. -/
def mpf_codec_encoder_close (codec : mpf_codec_t) : Bool × mpf_codec_t :=
  match codec.vtable.close_encoder with
  | some f => ((f codec.objs).1, codec.setObjs (f codec.objs).2)
  | none => (true, codec)

/-- `mpf_codec_decoder_open`: `rv = TRUE`; if the vtable entry is set,
delegate and take its result. -/
def mpf_codec_decoder_open (codec : mpf_codec_t) : Bool × mpf_codec_t :=
  match codec.vtable.open_decoder with
  | some f => ((f codec.objs).1, codec.setObjs (f codec.objs).2)
  | none => (true, codec)

/-- `mpf_codec_decoder_close`: `rv = TRUE`; if the vtable entry is set,
delegate and take its result. -/
def mpf_codec_decoder_close (codec : mpf_codec_t) : Bool × mpf_codec_t :=
  match codec.vtable.close_decoder with
  | some f => ((f codec.objs).1, codec.setObjs (f codec.objs).2)
  | none => (true, codec)

/-- Heap-level `mpf_codec_encoder_open(heap[p])`: the call reads and writes
only the codec record at address `p`. -/
def mpf_codec_encoder_open_at (h : CodecHeap) (p : Nat) : Bool × CodecHeap :=
  match h.store p with
  | none => (true, h)
  | some c => ((mpf_codec_encoder_open c).1, h.write p (mpf_codec_encoder_open c).2)

/-- Heap-level `mpf_codec_encoder_close(heap[p])`. -/
def mpf_codec_encoder_close_at (h : CodecHeap) (p : Nat) : Bool × CodecHeap :=
  match h.store p with
  | none => (true, h)
  | some c => ((mpf_codec_encoder_close c).1, h.write p (mpf_codec_encoder_close c).2)

/-- Heap-level `mpf_codec_decoder_open(heap[p])`. -/
def mpf_codec_decoder_open_at (h : CodecHeap) (p : Nat) : Bool × CodecHeap :=
  match h.store p with
  | none => (true, h)
  | some c => ((mpf_codec_decoder_open c).1, h.write p (mpf_codec_decoder_open c).2)

/-- Heap-level `mpf_codec_decoder_close(heap[p])`. -/
def mpf_codec_decoder_close_at (h : CodecHeap) (p : Nat) : Bool × CodecHeap :=
  match h.store p with
  | none => (true, h)
  | some c => ((mpf_codec_decoder_close c).1, h.write p (mpf_codec_decoder_close c).2)

/-- Result of `mpf_codec_encode` / `mpf_codec_decode` / `mpf_codec_fill`:
flag, (possibly mutated) codec, and the content behind `frame_out`. -/
structure mpf_frame_result where
  rv        : Bool
  codec     : mpf_codec_t
  frame_out : mpf_codec_frame_t

/-- `mpf_codec_encode`: `rv = TRUE`; delegate if the vtable entry is set,
otherwise touch nothing. -/
def mpf_codec_encode (codec : mpf_codec_t) (frame_in frame_out : mpf_codec_frame_t) :
    mpf_frame_result :=
  match codec.vtable.encode with
  | some f => ⟨(f codec.objs frame_in frame_out).1,
               codec.setObjs (f codec.objs frame_in frame_out).2.1,
               (f codec.objs frame_in frame_out).2.2⟩
  | none => ⟨true, codec, frame_out⟩

/-- `mpf_codec_decode`: `rv = TRUE`; delegate if the vtable entry is set,
otherwise touch nothing. -/
def mpf_codec_decode (codec : mpf_codec_t) (frame_in frame_out : mpf_codec_frame_t) :
    mpf_frame_result :=
  match codec.vtable.decode with
  | some f => ⟨(f codec.objs frame_in frame_out).1,
               codec.setObjs (f codec.objs frame_in frame_out).2.1,
               (f codec.objs frame_in frame_out).2.2⟩
  | none => ⟨true, codec, frame_out⟩

/-- `memcpy(dst, src, n)` into a frame payload region: the first `n` bytes
come from `src`, the rest of `dst` is untouched. -/
def memcpy_bytes (dst : Nat → Nat) (src : Nat → Nat) (n : Nat) : Nat → Nat :=
  fun i => if i < n then src i else dst i

/-- `memset(dst, 0, n)`: the first `n` bytes become `0`, the rest of `dst`
is untouched. -/
def memset_zero (dst : Nat → Nat) (n : Nat) : Nat → Nat :=
  fun i => if i < n then 0 else dst i

/-- Result of `mpf_codec_dissect`: flag, (possibly mutated) codec, the final
values behind the `buffer` and `size` pointers, and the content behind
`frame`. -/
structure mpf_dissect_result where
  rv     : Bool
  codec  : mpf_codec_t
  buffer : Nat
  size   : Nat
  frame  : mpf_codec_frame_t

/-- `mpf_codec_dissect`: delegate to a custom dissector if the vtable entry
is set; otherwise run the default dissector: if
`*size >= frame->size && frame->size`, copy `frame->size` bytes from `*buffer`
into the frame payload, advance `*buffer` and shrink `*size` by `frame->size`;
else `rv = FALSE` and nothing changes. -/
def mpf_codec_dissect (codec : mpf_codec_t) (mem : Mem) (buffer : Nat) (size : Nat)
    (frame : mpf_codec_frame_t) : mpf_dissect_result :=
  match codec.vtable.dissect with
  | some f =>
      ⟨(f codec.objs mem buffer size frame).1,
       codec.setObjs (f codec.objs mem buffer size frame).2.1,
       (f codec.objs mem buffer size frame).2.2.1,
       (f codec.objs mem buffer size frame).2.2.2.1,
       (f codec.objs mem buffer size frame).2.2.2.2⟩
  | none =>
      if frame.size ≤ size ∧ frame.size ≠ 0 then
        ⟨true, codec, buffer + frame.size, size - frame.size,
         { frame with
           buffer := memcpy_bytes frame.buffer (fun i => mem (buffer + i)) frame.size }⟩
      else
        ⟨false, codec, buffer, size, frame⟩

/-- `mpf_codec_fill`: `rv = TRUE`; delegate if the vtable entry is set,
otherwise `memset(frame_out->buffer, 0, frame_out->size)`. -/
def mpf_codec_fill (codec : mpf_codec_t) (frame_out : mpf_codec_frame_t) :
    mpf_frame_result :=
  match codec.vtable.fill with
  | some f => ⟨(f codec.objs frame_out).1,
               codec.setObjs (f codec.objs frame_out).2.1,
               (f codec.objs frame_out).2.2⟩
  | none => ⟨true, codec,
             { frame_out with buffer := memset_zero frame_out.buffer frame_out.size }⟩

/-- State threaded through repeated dissect calls, plus a success counter. -/
structure mpf_dissect_iter_state where
  codec     : mpf_codec_t
  buffer    : Nat
  size      : Nat
  frame     : mpf_codec_frame_t
  successes : Nat

/-- One dissect call on the threaded state, counting a success. -/
def mpf_codec_dissect_step (mem : Mem) (st : mpf_dissect_iter_state) :
    mpf_dissect_iter_state :=
  ⟨(mpf_codec_dissect st.codec mem st.buffer st.size st.frame).codec,
   (mpf_codec_dissect st.codec mem st.buffer st.size st.frame).buffer,
   (mpf_codec_dissect st.codec mem st.buffer st.size st.frame).size,
   (mpf_codec_dissect st.codec mem st.buffer st.size st.frame).frame,
   st.successes + if (mpf_codec_dissect st.codec mem st.buffer st.size st.frame).rv then 1 else 0⟩

/-- `n` successive dissect calls on the threaded state. -/
def mpf_codec_dissect_iter (mem : Mem) (st : mpf_dissect_iter_state) : Nat → mpf_dissect_iter_state
  | 0 => st
  | n + 1 => mpf_codec_dissect_step mem (mpf_codec_dissect_iter mem st n)

/-- A vtable with every entry `NULL`. -/
def vtable_all_none : mpf_codec_vtable_t :=
  ⟨none, none, none, none, none, none, none, none, none⟩

/-- A concrete codec over the all-`NULL` vtable. -/
def codec_plain : mpf_codec_t :=
  ⟨vtable_all_none, 0, none, none, none, 0⟩

/-- A concrete byte memory: address `i` holds byte `i`. -/
def mem_id : Mem := fun i => i

/-- A concrete frame of declared size `20`, payload initially all `7`. -/
def frame_20 : mpf_codec_frame_t := ⟨fun _ => 7, 20⟩

/-- A concrete frame of declared size `0`. -/
def frame_zero : mpf_codec_frame_t := ⟨fun _ => 7, 0⟩

/-- A lifecycle implementation used as a concrete vtable entry: report
failure, set the encoder object. -/
def impl_set_encoder : mpf_codec_objs_t → Bool × mpf_codec_objs_t :=
  fun o => (false, ⟨some 5, o.decoder_obj⟩)

/-- A concrete codec whose vtable has only `open_encoder` set. -/
def codec_with_open_encoder : mpf_codec_t :=
  ⟨{ vtable_all_none with open_encoder := some impl_set_encoder }, 0, none, none, none, 0⟩

/-- A concrete one-codec heap: address `0` holds `codec_plain`, the next
fresh address is `1`. -/
def heap_one : CodecHeap :=
  ⟨1, fun a => if a = 0 then some codec_plain else none⟩

/-- An encode implementation used as a concrete vtable entry: succeed and
pass the input frame through. -/
def impl_encode_id : mpf_codec_objs_t → mpf_codec_frame_t → mpf_codec_frame_t →
    Bool × mpf_codec_objs_t × mpf_codec_frame_t :=
  fun o frame_in _ => (true, o, frame_in)

/-- A concrete codec implementing only `encode` (so `decode` is `NULL`). -/
def codec_with_encode : mpf_codec_t :=
  ⟨{ vtable_all_none with encode := some impl_encode_id }, 0, none, none, none, 0⟩

/-- A fill implementation used as a concrete vtable entry: succeed, touch
nothing. -/
def impl_fill_noop : mpf_codec_objs_t → mpf_codec_frame_t →
    Bool × mpf_codec_objs_t × mpf_codec_frame_t :=
  fun o frame_out => (true, o, frame_out)

/-- A concrete codec implementing only `fill` (so the dissector is the
default one). -/
def codec_with_fill : mpf_codec_t :=
  ⟨{ vtable_all_none with fill := some impl_fill_noop }, 0, none, none, none, 0⟩

/-- C1: with no custom dissector, a dissect call with `0 < frame.size ≤
remaining_size` (including the exact boundary) succeeds, copies the first
`frame.size` bytes from the buffer head into the frame payload, advances the
buffer pointer by `frame.size` and shrinks `remaining_size` by `frame.size`. -/
theorem dissect_default_success (codec : mpf_codec_t) (mem : Mem)
    (buffer size : Nat) (frame : mpf_codec_frame_t)
    (hnone : codec.vtable.dissect = none)
    (hpos : 0 < frame.size) (hle : frame.size ≤ size) :
    (mpf_codec_dissect codec mem buffer size frame).rv = true ∧
    (mpf_codec_dissect codec mem buffer size frame).buffer = buffer + frame.size ∧
    (mpf_codec_dissect codec mem buffer size frame).size = size - frame.size ∧
    (∀ i, i < frame.size →
      (mpf_codec_dissect codec mem buffer size frame).frame.buffer i = mem (buffer + i)) := by
  have hc : frame.size ≤ size ∧ frame.size ≠ 0 := ⟨hle, Nat.pos_iff_ne_zero.mp hpos⟩
  simp only [mpf_codec_dissect, hnone, if_pos hc]
  refine ⟨trivial, trivial, trivial, ?_⟩
  intro i hi
  simp [memcpy_bytes, hi]

/-- C1 witness: at the exact boundary `size = frame.size = 20`, dissect
succeeds, consumes the 20 bytes and copies them. -/
theorem dissect_default_success_witness :
    codec_plain.vtable.dissect = none ∧ 0 < frame_20.size ∧ frame_20.size ≤ 20 ∧
    (mpf_codec_dissect codec_plain mem_id 3 20 frame_20).rv = true ∧
    (mpf_codec_dissect codec_plain mem_id 3 20 frame_20).buffer = 3 + frame_20.size ∧
    (mpf_codec_dissect codec_plain mem_id 3 20 frame_20).size = 20 - frame_20.size ∧
    (mpf_codec_dissect codec_plain mem_id 3 20 frame_20).frame.buffer 4 = mem_id (3 + 4) := by
  have h := dissect_default_success codec_plain mem_id 3 20 frame_20 rfl
    (by decide) (by decide)
  exact ⟨rfl, by decide, by decide, h.1, h.2.1, h.2.2.1, h.2.2.2 4 (by decide)⟩

/-- C2: with no custom dissector, dissect fails iff `frame.size = 0` or
`remaining_size < frame.size`, and a failing call changes nothing: buffer
pointer, remaining size, frame and codec are all left as they were. -/
theorem dissect_default_failure_iff (codec : mpf_codec_t) (mem : Mem)
    (buffer size : Nat) (frame : mpf_codec_frame_t)
    (hnone : codec.vtable.dissect = none) :
    ((mpf_codec_dissect codec mem buffer size frame).rv = false ↔
      (frame.size = 0 ∨ size < frame.size)) ∧
    ((mpf_codec_dissect codec mem buffer size frame).rv = false →
      (mpf_codec_dissect codec mem buffer size frame).buffer = buffer ∧
      (mpf_codec_dissect codec mem buffer size frame).size = size ∧
      (mpf_codec_dissect codec mem buffer size frame).frame = frame ∧
      (mpf_codec_dissect codec mem buffer size frame).codec = codec) := by
  by_cases hc : frame.size ≤ size ∧ frame.size ≠ 0
  · simp only [mpf_codec_dissect, hnone, if_pos hc]
    constructor
    · simp only [Bool.true_eq_false, false_iff]
      omega
    · intro hfalse
      exact absurd hfalse (by simp)
  · simp only [mpf_codec_dissect, hnone, if_neg hc]
    exact ⟨by simpa using by omega, fun _ => ⟨trivial, trivial, trivial, trivial⟩⟩

/-- C2 witness: a zero-size frame request fails and mutates nothing, even
with bytes available. -/
theorem dissect_default_failure_iff_witness :
    codec_plain.vtable.dissect = none ∧
    (mpf_codec_dissect codec_plain mem_id 3 20 frame_zero).rv = false ∧
    (mpf_codec_dissect codec_plain mem_id 3 20 frame_zero).buffer = 3 ∧
    (mpf_codec_dissect codec_plain mem_id 3 20 frame_zero).size = 20 ∧
    (mpf_codec_dissect codec_plain mem_id 3 20 frame_zero).frame = frame_zero := by
  have h := dissect_default_failure_iff codec_plain mem_id 3 20 frame_zero rfl
  have hf : (mpf_codec_dissect codec_plain mem_id 3 20 frame_zero).rv = false :=
    h.1.mpr (Or.inl (by decide))
  have h2 := h.2 hf
  exact ⟨rfl, hf, h2.1, h2.2.1, h2.2.2.1⟩

/-- C4: with no fill implementation in the family, `mpf_codec_fill` succeeds
and zero-fills all `frame_out.size` declared bytes of the frame's buffer. -/
theorem fill_default_zero (codec : mpf_codec_t) (frame_out : mpf_codec_frame_t)
    (hnone : codec.vtable.fill = none) :
    (mpf_codec_fill codec frame_out).rv = true ∧
    (∀ i, i < frame_out.size → (mpf_codec_fill codec frame_out).frame_out.buffer i = 0) := by
  simp only [mpf_codec_fill, hnone]
  exact ⟨trivial, fun i hi => by simp [memset_zero, hi]⟩

/-- C4 witness: filling the concrete 20-byte frame zeroes its declared bytes. -/
theorem fill_default_zero_witness :
    codec_plain.vtable.fill = none ∧
    (mpf_codec_fill codec_plain frame_20).rv = true ∧
    (mpf_codec_fill codec_plain frame_20).frame_out.buffer 19 = 0 := by
  have h := fill_default_zero codec_plain frame_20 rfl
  exact ⟨rfl, h.1, h.2 19 (by decide)⟩

/-- C5: for any codec, if its family declares no encode implementation then
`mpf_codec_encode` succeeds and leaves the codec and the output frame exactly
as given, and likewise — independently — for decode: each half needs only its
own vtable entry to be `NULL`, whatever the other entry is. -/
theorem encode_decode_absent_noop (codec : mpf_codec_t)
    (frame_in frame_out : mpf_codec_frame_t) :
    (codec.vtable.encode = none →
      mpf_codec_encode codec frame_in frame_out = ⟨true, codec, frame_out⟩) ∧
    (codec.vtable.decode = none →
      mpf_codec_decode codec frame_in frame_out = ⟨true, codec, frame_out⟩) := by
  constructor
  · intro henc
    simp [mpf_codec_encode, henc]
  · intro hdec
    simp [mpf_codec_decode, hdec]

/-- C5 witness: on the all-`NULL`-vtable codec both calls return the output
frame untouched, and on a codec implementing only encode the decode half
still applies. -/
theorem encode_decode_absent_noop_witness :
    codec_plain.vtable.encode = none ∧ codec_plain.vtable.decode = none ∧
    mpf_codec_encode codec_plain frame_zero frame_20 = ⟨true, codec_plain, frame_20⟩ ∧
    mpf_codec_decode codec_plain frame_zero frame_20 = ⟨true, codec_plain, frame_20⟩ ∧
    codec_with_encode.vtable.decode = none ∧
    mpf_codec_decode codec_with_encode frame_zero frame_20 =
      ⟨true, codec_with_encode, frame_20⟩ := by
  refine ⟨rfl, rfl,
    (encode_decode_absent_noop codec_plain frame_zero frame_20).1 rfl,
    (encode_decode_absent_noop codec_plain frame_zero frame_20).2 rfl,
    rfl,
    (encode_decode_absent_noop codec_with_encode frame_zero frame_20).2 rfl⟩

/-- C6: each lifecycle wrapper returns `(TRUE, codec unchanged)` when the
family declares no implementation for it, and exactly the implementation's
result (flag and mutated objects) when one is present. -/
theorem lifecycle_dispatch (codec : mpf_codec_t) :
    (codec.vtable.open_encoder = none → mpf_codec_encoder_open codec = (true, codec)) ∧
    (∀ f, codec.vtable.open_encoder = some f →
      mpf_codec_encoder_open codec = ((f codec.objs).1, codec.setObjs (f codec.objs).2)) ∧
    (codec.vtable.close_encoder = none → mpf_codec_encoder_close codec = (true, codec)) ∧
    (∀ f, codec.vtable.close_encoder = some f →
      mpf_codec_encoder_close codec = ((f codec.objs).1, codec.setObjs (f codec.objs).2)) ∧
    (codec.vtable.open_decoder = none → mpf_codec_decoder_open codec = (true, codec)) ∧
    (∀ f, codec.vtable.open_decoder = some f →
      mpf_codec_decoder_open codec = ((f codec.objs).1, codec.setObjs (f codec.objs).2)) ∧
    (codec.vtable.close_decoder = none → mpf_codec_decoder_close codec = (true, codec)) ∧
    (∀ f, codec.vtable.close_decoder = some f →
      mpf_codec_decoder_close codec = ((f codec.objs).1, codec.setObjs (f codec.objs).2)) := by
  refine ⟨fun h => ?_, fun f h => ?_, fun h => ?_, fun f h => ?_,
          fun h => ?_, fun f h => ?_, fun h => ?_, fun f h => ?_⟩ <;>
    simp [mpf_codec_encoder_open, mpf_codec_encoder_close,
          mpf_codec_decoder_open, mpf_codec_decoder_close, h]

/-- C6 witness: the all-`NULL` codec's open-encoder call is a successful
no-op; a codec with an `open_encoder` entry gets exactly that entry's
result. -/
theorem lifecycle_dispatch_witness :
    codec_plain.vtable.open_encoder = none ∧
    mpf_codec_encoder_open codec_plain = (true, codec_plain) ∧
    codec_with_open_encoder.vtable.open_encoder = some impl_set_encoder ∧
    mpf_codec_encoder_open codec_with_open_encoder =
      ((impl_set_encoder codec_with_open_encoder.objs).1,
       codec_with_open_encoder.setObjs (impl_set_encoder codec_with_open_encoder.objs).2) := by
  refine ⟨rfl, (lifecycle_dispatch codec_plain).1 rfl, rfl,
    (lifecycle_dispatch codec_with_open_encoder).2.1 impl_set_encoder rfl⟩

/-- C9: for the default dissector, buffer pointer plus remaining size is
invariant across every call, successful or failing: the advance always equals
the decrement. -/
theorem dissect_default_conservation (codec : mpf_codec_t) (mem : Mem)
    (buffer size : Nat) (frame : mpf_codec_frame_t)
    (hnone : codec.vtable.dissect = none) :
    (mpf_codec_dissect codec mem buffer size frame).buffer +
      (mpf_codec_dissect codec mem buffer size frame).size = buffer + size := by
  by_cases hc : frame.size ≤ size ∧ frame.size ≠ 0
  · simp only [mpf_codec_dissect, hnone, if_pos hc]
    omega
  · simp only [mpf_codec_dissect, hnone, if_neg hc]

/-- C9 witness: the invariant at a concrete successful call. -/
theorem dissect_default_conservation_witness :
    codec_plain.vtable.dissect = none ∧
    (mpf_codec_dissect codec_plain mem_id 3 50 frame_20).buffer +
      (mpf_codec_dissect codec_plain mem_id 3 50 frame_20).size = 3 + 50 :=
  ⟨rfl, dissect_default_conservation codec_plain mem_id 3 50 frame_20 rfl⟩

/-- C10: whenever the dissector is the default one, it writes only within
the frame's declared extent — bytes at indices `≥ frame.size` are untouched —
never changes the frame's `size` field, and on success writes the
buffer-head bytes within the extent; independently, whenever fill is the
default one, it writes only zeros within the extent and leaves the `size`
field and everything beyond untouched. Each half needs only its own vtable
entry to be `NULL`, whatever the other entry is. -/
theorem dissect_fill_frame_extent (codec : mpf_codec_t) (mem : Mem)
    (buffer size : Nat) (frame frame_out : mpf_codec_frame_t) :
    (codec.vtable.dissect = none →
      (mpf_codec_dissect codec mem buffer size frame).frame.size = frame.size ∧
      (∀ i, frame.size ≤ i →
        (mpf_codec_dissect codec mem buffer size frame).frame.buffer i = frame.buffer i) ∧
      ((mpf_codec_dissect codec mem buffer size frame).rv = true →
        ∀ i, i < frame.size →
          (mpf_codec_dissect codec mem buffer size frame).frame.buffer i = mem (buffer + i))) ∧
    (codec.vtable.fill = none →
      (mpf_codec_fill codec frame_out).frame_out.size = frame_out.size ∧
      (∀ i, frame_out.size ≤ i →
        (mpf_codec_fill codec frame_out).frame_out.buffer i = frame_out.buffer i) ∧
      (∀ i, i < frame_out.size →
        (mpf_codec_fill codec frame_out).frame_out.buffer i = 0)) := by
  constructor
  · intro hdis
    refine ⟨?_, ?_, ?_⟩
    · by_cases hc : frame.size ≤ size ∧ frame.size ≠ 0 <;>
        simp [mpf_codec_dissect, hdis, hc]
    · intro i hi
      by_cases hc : frame.size ≤ size ∧ frame.size ≠ 0 <;>
        simp [mpf_codec_dissect, hdis, hc, memcpy_bytes, Nat.not_lt.mpr hi]
    · intro hrv i hi
      by_cases hc : frame.size ≤ size ∧ frame.size ≠ 0
      · simp [mpf_codec_dissect, hdis, hc, memcpy_bytes, hi]
      · exact absurd hrv (by simp [mpf_codec_dissect, hdis, hc])
  · intro hfill
    refine ⟨?_, ?_, ?_⟩
    · simp [mpf_codec_fill, hfill]
    · intro i hi
      simp [mpf_codec_fill, hfill, memset_zero, Nat.not_lt.mpr hi]
    · intro i hi
      simp [mpf_codec_fill, hfill, memset_zero, hi]

/-- C10 witness: the dissect half applies on a codec with a custom fill but
the default dissector, the fill half on the all-`NULL` codec: the byte just
past the extent is untouched, the sizes are unchanged, and bytes inside the
extent hold the copied byte resp. zero. -/
theorem dissect_fill_frame_extent_witness :
    codec_with_fill.vtable.dissect = none ∧ codec_plain.vtable.fill = none ∧
    (mpf_codec_dissect codec_with_fill mem_id 3 50 frame_20).frame.size = frame_20.size ∧
    (mpf_codec_dissect codec_with_fill mem_id 3 50 frame_20).frame.buffer 20 =
      frame_20.buffer 20 ∧
    (mpf_codec_fill codec_plain frame_20).frame_out.size = frame_20.size ∧
    (mpf_codec_fill codec_plain frame_20).frame_out.buffer 20 = frame_20.buffer 20 ∧
    (mpf_codec_fill codec_plain frame_20).frame_out.buffer 0 = 0 := by
  have hd := (dissect_fill_frame_extent codec_with_fill mem_id 3 50 frame_20 frame_20).1 rfl
  have hf := (dissect_fill_frame_extent codec_plain mem_id 3 50 frame_20 frame_20).2 rfl
  exact ⟨rfl, rfl, hd.1, hd.2.1 20 (by decide), hf.1,
    hf.2.1 20 (by decide), hf.2.2 0 (by decide)⟩

/-- C8: `mpf_codec_create` allocates at the fresh address and stores a codec
whose vtable, attribs and descriptor are exactly the arguments, whose
encoder/decoder objects are `NULL`, and whose pool is the given pool — with
no precondition on any argument. -/
theorem create_spec (vtable : mpf_codec_vtable_t) (attribs : Nat)
    (descriptor : Option Nat) (pool : Nat) (h : CodecHeap) :
    (mpf_codec_create vtable attribs descriptor pool h).1 = h.next ∧
    (mpf_codec_create vtable attribs descriptor pool h).2.store
        (mpf_codec_create vtable attribs descriptor pool h).1 =
      some ⟨vtable, attribs, descriptor, none, none, pool⟩ := by
  exact ⟨rfl, by simp [mpf_codec_create, CodecHeap.alloc]⟩

/-- Writing the address `p` leaves the record at any other address alone. -/
theorem CodecHeap.write_store_other (h : CodecHeap) (p a : Nat) (c : mpf_codec_t)
    (hne : a ≠ p) : (h.write p c).store a = h.store a := by
  simp [CodecHeap.write, hne]

/-- A heap-level encoder-open at `p` leaves every other address alone. -/
theorem encoder_open_at_store_other (h : CodecHeap) (p a : Nat) (hne : a ≠ p) :
    (mpf_codec_encoder_open_at h p).2.store a = h.store a := by
  unfold mpf_codec_encoder_open_at
  split
  · rfl
  · exact CodecHeap.write_store_other _ _ _ _ hne

/-- A heap-level encoder-close at `p` leaves every other address alone. -/
theorem encoder_close_at_store_other (h : CodecHeap) (p a : Nat) (hne : a ≠ p) :
    (mpf_codec_encoder_close_at h p).2.store a = h.store a := by
  unfold mpf_codec_encoder_close_at
  split
  · rfl
  · exact CodecHeap.write_store_other _ _ _ _ hne

/-- A heap-level decoder-open at `p` leaves every other address alone. -/
theorem decoder_open_at_store_other (h : CodecHeap) (p a : Nat) (hne : a ≠ p) :
    (mpf_codec_decoder_open_at h p).2.store a = h.store a := by
  unfold mpf_codec_decoder_open_at
  split
  · rfl
  · exact CodecHeap.write_store_other _ _ _ _ hne

/-- A heap-level decoder-close at `p` leaves every other address alone. -/
theorem decoder_close_at_store_other (h : CodecHeap) (p a : Nat) (hne : a ≠ p) :
    (mpf_codec_decoder_close_at h p).2.store a = h.store a := by
  unfold mpf_codec_decoder_close_at
  split
  · rfl
  · exact CodecHeap.write_store_other _ _ _ _ hne

/-- C7: cloning an allocated source codec yields a fresh address distinct
from the source, holding a codec with the source's vtable, attribs and
descriptor, `NULL` encoder/decoder objects, and the given pool; the source
record is untouched; and any later lifecycle call on the clone's address
leaves the source's record unchanged, and vice versa. -/
theorem clone_spec (h : CodecHeap) (src_codec pool q : Nat) (h2 : CodecHeap)
    (sc : mpf_codec_t)
    (hsrc : h.store src_codec = some sc) (hlt : src_codec < h.next)
    (hclone : mpf_codec_clone src_codec pool h = (q, h2)) :
    q = h.next ∧ src_codec ≠ q ∧
    h2.store q = some ⟨sc.vtable, sc.attribs, sc.static_descriptor, none, none, pool⟩ ∧
    h2.store src_codec = some sc ∧
    (∀ hh : CodecHeap,
      (mpf_codec_encoder_open_at hh q).2.store src_codec = hh.store src_codec ∧
      (mpf_codec_encoder_close_at hh q).2.store src_codec = hh.store src_codec ∧
      (mpf_codec_decoder_open_at hh q).2.store src_codec = hh.store src_codec ∧
      (mpf_codec_decoder_close_at hh q).2.store src_codec = hh.store src_codec ∧
      (mpf_codec_encoder_open_at hh src_codec).2.store q = hh.store q ∧
      (mpf_codec_encoder_close_at hh src_codec).2.store q = hh.store q ∧
      (mpf_codec_decoder_open_at hh src_codec).2.store q = hh.store q ∧
      (mpf_codec_decoder_close_at hh src_codec).2.store q = hh.store q) := by
  unfold mpf_codec_clone at hclone
  rw [hsrc] at hclone
  unfold CodecHeap.alloc at hclone
  obtain ⟨hq, hh2⟩ := Prod.ext_iff.mp hclone
  subst hq
  subst hh2
  have hne : src_codec ≠ h.next := Nat.ne_of_lt hlt
  refine ⟨rfl, hne, by simp, by simp [hne, hsrc], fun hh => ?_⟩
  exact ⟨encoder_open_at_store_other hh h.next src_codec hne,
         encoder_close_at_store_other hh h.next src_codec hne,
         decoder_open_at_store_other hh h.next src_codec hne,
         decoder_close_at_store_other hh h.next src_codec hne,
         encoder_open_at_store_other hh src_codec h.next (Ne.symm hne),
         encoder_close_at_store_other hh src_codec h.next (Ne.symm hne),
         decoder_open_at_store_other hh src_codec h.next (Ne.symm hne),
         decoder_close_at_store_other hh src_codec h.next (Ne.symm hne)⟩

/-- C7 witness: cloning the codec at address `0` of the one-codec heap into
pool `3` lands at the fresh address `1`, shares the source's metadata with
fresh state, and opening the clone's encoder leaves the source record as it
was. -/
theorem clone_spec_witness :
    heap_one.store 0 = some codec_plain ∧ 0 < heap_one.next ∧
    (mpf_codec_clone 0 3 heap_one).1 = heap_one.next ∧
    0 ≠ (mpf_codec_clone 0 3 heap_one).1 ∧
    (mpf_codec_clone 0 3 heap_one).2.store (mpf_codec_clone 0 3 heap_one).1 =
      some ⟨codec_plain.vtable, codec_plain.attribs, codec_plain.static_descriptor,
            none, none, 3⟩ ∧
    (mpf_codec_clone 0 3 heap_one).2.store 0 = some codec_plain ∧
    (mpf_codec_encoder_open_at heap_one (mpf_codec_clone 0 3 heap_one).1).2.store 0 =
      heap_one.store 0 := by
  have h := clone_spec heap_one 0 3 (mpf_codec_clone 0 3 heap_one).1
    (mpf_codec_clone 0 3 heap_one).2 codec_plain rfl (by decide) rfl
  exact ⟨rfl, by decide, h.1, h.2.1, h.2.2.1, h.2.2.2.1, (h.2.2.2.2 heap_one).1⟩

/-- Invariant of repeated default dissection: after `n` calls with fixed
frame size `F > 0` against `S` remaining bytes, exactly `min n (S / F)` calls
have succeeded, the pointer and size have moved by that many whole frames,
the codec and the frame's declared size are untouched, and after at least
one success the frame holds the bytes of the last consumed chunk. -/
theorem dissect_iter_default_spec (codec : mpf_codec_t) (mem : Mem)
    (b0 S F : Nat) (frame : mpf_codec_frame_t)
    (hnone : codec.vtable.dissect = none) (hF : 0 < F) (hfs : frame.size = F) :
    ∀ n,
      (mpf_codec_dissect_iter mem ⟨codec, b0, S, frame, 0⟩ n).codec = codec ∧
      (mpf_codec_dissect_iter mem ⟨codec, b0, S, frame, 0⟩ n).frame.size = F ∧
      (mpf_codec_dissect_iter mem ⟨codec, b0, S, frame, 0⟩ n).buffer = b0 + min n (S / F) * F ∧
      (mpf_codec_dissect_iter mem ⟨codec, b0, S, frame, 0⟩ n).size = S - min n (S / F) * F ∧
      (mpf_codec_dissect_iter mem ⟨codec, b0, S, frame, 0⟩ n).successes = min n (S / F) ∧
      (0 < min n (S / F) → ∀ i, i < F →
        (mpf_codec_dissect_iter mem ⟨codec, b0, S, frame, 0⟩ n).frame.buffer i =
          mem (b0 + (min n (S / F) - 1) * F + i)) := by
  intro n
  induction n with
  | zero =>
      have h0 : min 0 (S / F) = 0 := min_eq_left (Nat.zero_le _)
      refine ⟨rfl, hfs, by rw [h0]; simp [mpf_codec_dissect_iter],
        by rw [h0]; simp [mpf_codec_dissect_iter],
        by rw [h0]; simp [mpf_codec_dissect_iter], ?_⟩
      rw [h0]
      intro hx
      exact absurd hx (by simp)
  | succ n ih =>
      obtain ⟨hcd, hfsz, hbuf, hsz, hsucc, hcont⟩ := ih
      by_cases hlt : n < S / F
      · have hminn : min n (S / F) = n := by omega
        have hminn1 : min (n + 1) (S / F) = n + 1 := by omega
        have hmul : (n + 1) * F ≤ S := (Nat.le_div_iff_mul_le hF).mp (by omega)
        have hsplit : (n + 1) * F = n * F + F := by ring
        have hc : F ≤ S - min n (S / F) * F ∧ F ≠ 0 := by
          rw [hminn]
          omega
        refine ⟨?_, ?_, ?_, ?_, ?_, ?_⟩
        · simp [mpf_codec_dissect_iter, mpf_codec_dissect_step, hcd, hbuf, hsz,
            hfsz, mpf_codec_dissect, hnone, if_pos hc]
        · simp [mpf_codec_dissect_iter, mpf_codec_dissect_step, hcd, hbuf, hsz,
            hfsz, mpf_codec_dissect, hnone, if_pos hc]
        · simp only [mpf_codec_dissect_iter, mpf_codec_dissect_step, hcd, hbuf, hsz,
            hfsz, mpf_codec_dissect, hnone, if_pos hc]
          rw [hminn, hminn1, hsplit]
          ring
        · simp only [mpf_codec_dissect_iter, mpf_codec_dissect_step, hcd, hbuf, hsz,
            hfsz, mpf_codec_dissect, hnone, if_pos hc]
          rw [hminn, hminn1, hsplit]
          omega
        · simp only [mpf_codec_dissect_iter, mpf_codec_dissect_step, hcd, hbuf, hsz,
            hsucc, hfsz, mpf_codec_dissect, hnone, if_pos hc]
          rw [hminn, hminn1]
          simp
        · intro hx i hi
          simp only [mpf_codec_dissect_iter, mpf_codec_dissect_step, hcd, hbuf, hsz,
            hfsz, mpf_codec_dissect, hnone, if_pos hc, memcpy_bytes, if_pos hi]
          rw [hminn, hminn1]
          simp
      · have hge : S / F ≤ n := by omega
        have hminn : min n (S / F) = S / F := by omega
        have hminn1 : min (n + 1) (S / F) = S / F := by omega
        have hdm := Nat.div_add_mod S F
        have hcomm : S / F * F = F * (S / F) := Nat.mul_comm _ _
        have hmlt : S % F < F := Nat.mod_lt _ hF
        have hc : ¬(F ≤ S - min n (S / F) * F ∧ F ≠ 0) := by
          rw [hminn]
          intro hx
          omega
        refine ⟨?_, ?_, ?_, ?_, ?_, ?_⟩
        · simp [mpf_codec_dissect_iter, mpf_codec_dissect_step, hcd, hbuf, hsz,
            hfsz, mpf_codec_dissect, hnone, if_neg hc]
        · simp [mpf_codec_dissect_iter, mpf_codec_dissect_step, hcd, hbuf, hsz,
            hfsz, mpf_codec_dissect, hnone, if_neg hc]
        · simp only [mpf_codec_dissect_iter, mpf_codec_dissect_step, hcd, hbuf, hsz,
            hfsz, mpf_codec_dissect, hnone, if_neg hc]
          rw [hminn, hminn1]
        · simp only [mpf_codec_dissect_iter, mpf_codec_dissect_step, hcd, hbuf, hsz,
            hfsz, mpf_codec_dissect, hnone, if_neg hc]
          rw [hminn, hminn1]
        · simp only [mpf_codec_dissect_iter, mpf_codec_dissect_step, hcd, hbuf, hsz,
            hsucc, hfsz, mpf_codec_dissect, hnone, if_neg hc]
          rw [hminn, hminn1]
          simp
        · intro hx i hi
          have hx' : 0 < min n (S / F) := by omega
          have hprev := hcont hx' i hi
          simp only [mpf_codec_dissect_iter, mpf_codec_dissect_step, hcd, hbuf, hsz,
            hfsz, mpf_codec_dissect, hnone, if_neg hc]
          rw [hminn1]
          rw [hminn] at hprev
          exact hprev

/-- C3: repeated default dissection of a buffer with `S` remaining bytes and
fixed frame size `F > 0` succeeds exactly `S / F` times: after `n` calls the
success count is `min n (S / F)`, the pointer has advanced by exactly that
many whole frames and never past the original end, once `n ≥ S / F` the
count is pinned at `S / F` and the remaining size at `S % F` (every further
call fails and changes nothing), and the frame holds the bytes of the last
consumed chunk. -/
theorem dissect_default_exhaustion (codec : mpf_codec_t) (mem : Mem)
    (b0 S F : Nat) (frame : mpf_codec_frame_t)
    (hnone : codec.vtable.dissect = none) (hF : 0 < F) (hfs : frame.size = F)
    (n : Nat) :
    (mpf_codec_dissect_iter mem ⟨codec, b0, S, frame, 0⟩ n).successes = min n (S / F) ∧
    (mpf_codec_dissect_iter mem ⟨codec, b0, S, frame, 0⟩ n).buffer = b0 + min n (S / F) * F ∧
    (mpf_codec_dissect_iter mem ⟨codec, b0, S, frame, 0⟩ n).buffer ≤ b0 + S ∧
    (S / F ≤ n →
      (mpf_codec_dissect_iter mem ⟨codec, b0, S, frame, 0⟩ n).size = S % F ∧
      (mpf_codec_dissect_iter mem ⟨codec, b0, S, frame, 0⟩ n).successes = S / F) ∧
    (0 < min n (S / F) → ∀ i, i < F →
      (mpf_codec_dissect_iter mem ⟨codec, b0, S, frame, 0⟩ n).frame.buffer i =
        mem (b0 + (min n (S / F) - 1) * F + i)) := by
  obtain ⟨hcd, hfsz, hbuf, hsz, hsucc, hcont⟩ :=
    dissect_iter_default_spec codec mem b0 S F frame hnone hF hfs n
  have hmle : min n (S / F) * F ≤ S := by
    calc min n (S / F) * F ≤ S / F * F := Nat.mul_le_mul_right F (Nat.min_le_right _ _)
    _ ≤ S := Nat.div_mul_le_self S F
  refine ⟨hsucc, hbuf, ?_, ?_, hcont⟩
  · rw [hbuf]
    omega
  · intro hge
    have hminn : min n (S / F) = S / F := by omega
    have hdm := Nat.div_add_mod S F
    have hcomm : S / F * F = F * (S / F) := Nat.mul_comm _ _
    constructor
    · rw [hsz, hminn]
      omega
    · rw [hsucc, hminn]

/-- C3 witness: 50 bytes, frame size 20 — two successes consuming bytes
`[0,20)` then `[20,40)` (the frame then holds byte 20 of the identity
memory), remaining size 10 after the second call, and the failing third
call leaves the count at 2 and the remaining size at 10, never moving the
pointer past the end. -/
theorem dissect_default_exhaustion_witness :
    codec_plain.vtable.dissect = none ∧ 0 < (20 : Nat) ∧ frame_20.size = 20 ∧
    (mpf_codec_dissect_iter mem_id ⟨codec_plain, 0, 50, frame_20, 0⟩ 2).successes = 2 ∧
    (mpf_codec_dissect_iter mem_id ⟨codec_plain, 0, 50, frame_20, 0⟩ 2).size = 10 ∧
    (mpf_codec_dissect_iter mem_id ⟨codec_plain, 0, 50, frame_20, 0⟩ 3).successes = 2 ∧
    (mpf_codec_dissect_iter mem_id ⟨codec_plain, 0, 50, frame_20, 0⟩ 3).size = 10 ∧
    (mpf_codec_dissect_iter mem_id ⟨codec_plain, 0, 50, frame_20, 0⟩ 3).buffer ≤ 0 + 50 ∧
    (mpf_codec_dissect_iter mem_id ⟨codec_plain, 0, 50, frame_20, 0⟩ 2).frame.buffer 0 = 20 := by
  have h2 := dissect_default_exhaustion codec_plain mem_id 0 50 20 frame_20 rfl
    (by decide) rfl 2
  have h3 := dissect_default_exhaustion codec_plain mem_id 0 50 20 frame_20 rfl
    (by decide) rfl 3
  refine ⟨rfl, by decide, rfl, ?_, ?_, ?_, ?_, h3.2.2.1, ?_⟩
  · simpa using h2.1
  · simpa using (h2.2.2.2.1 (by norm_num)).1
  · simpa using h3.1
  · simpa using (h3.2.2.2.1 (by norm_num)).1
  · have hb := h2.2.2.2.2 (by norm_num) 0 (by norm_num)
    simpa [mem_id] using hb
